import Mathlib

/-!
Verification development for the Chaikin curve animation program
(`src/main.rs`).  The curve model (`ChaikinCurve`) and the rasterizer
(`draw_point`, `draw_line`) are shallowly embedded below.

Modelling conventions:
* `f32` coordinates are embedded as exact rationals (`ℚ`); the constants
  appearing in the program (0.25, 0.75, radii) are exactly representable.
* `Instant` timestamps are embedded as natural-number milliseconds; the
  monotonic clock guarantees `now ≥ last_step_time`, and
  `Instant::elapsed` becomes truncated subtraction `now - last_step_time`.
* The unbounded `loop` in `draw_line` is embedded with explicit fuel
  returning `Option`; `none` models non-termination (fuel exhaustion), so
  termination of the source loop is the statement that a finite fuel
  yields `some`.
* Rust `Vec` indexing that can panic is embedded with `List.get?`.
-/

namespace Chaikin

/-- Screen width from `src/main.rs` (`const WIDTH`). -/
def WIDTH : Nat := 800

/-- Screen height from `src/main.rs` (`const HEIGHT`). -/
def HEIGHT : Nat := 600

/-- Hit radius of a control point (`const POINT_RADIUS`). -/
def POINT_RADIUS : ℚ := 5

/-- Animation step duration in milliseconds (`ANIMATION_STEP_DURATION`). -/
def ANIMATION_STEP_DURATION : Nat := 500

/-- Number of subdivision passes precomputed (`const MAX_ANIMATION_STEPS`). -/
def MAX_ANIMATION_STEPS : Nat := 7

/-- A 2-D point (`nalgebra::Point2<f32>`), coordinates as exact rationals. -/
structure Point where
  x : ℚ
  y : ℚ
deriving DecidableEq, Repr

/-- `struct ControlPoint { position, selected }`. -/
structure ControlPoint where
  position : Point
  selected : Bool
deriving DecidableEq, Repr

/-- `ControlPoint::new(x, y)`: unselected point at `(x, y)`. -/
def ControlPoint.new (x y : ℚ) : ControlPoint :=
  { position := ⟨x, y⟩, selected := false }

/-- `struct ChaikinCurve`: the curve model's mutable state. -/
structure ChaikinCurve where
  control_points : List ControlPoint
  animation_steps : List (List Point)
  current_step : Nat
  animating : Bool
  last_step_time : Nat
deriving DecidableEq, Repr

/-- `ChaikinCurve::new()`; the start-of-process instant is time 0. -/
def ChaikinCurve.new : ChaikinCurve :=
  { control_points := []
    animation_steps := []
    current_step := 0
    animating := false
    last_step_time := 0 }

/-- `ChaikinCurve::add_point`: append a fresh unselected control point. -/
def ChaikinCurve.add_point (c : ChaikinCurve) (x y : ℚ) : ChaikinCurve :=
  { c with control_points := c.control_points ++ [ControlPoint.new x y] }

/-- `ChaikinCurve::reset_animation`: clear steps, zero the index, stop. -/
def ChaikinCurve.reset_animation (c : ChaikinCurve) : ChaikinCurve :=
  { c with animation_steps := [], current_step := 0, animating := false }

/-- `ChaikinCurve::clear_points`. -/
def ChaikinCurve.clear_points (c : ChaikinCurve) : ChaikinCurve :=
  ChaikinCurve.reset_animation { c with control_points := [] }

/-- The two interpolated points `q`, `r` the subdivision emits for a
consecutive pair `(p0, p1)`:
`q = 0.75*p0 + 0.25*p1`, `r = 0.25*p0 + 0.75*p1` (body of the `for`
loop in `ChaikinCurve::chaikin_step`). -/
def chaikin_pair (p0 p1 : Point) : List Point :=
  [⟨p0.x * 0.75 + p1.x * 0.25, p0.y * 0.75 + p1.y * 0.25⟩,
   ⟨p0.x * 0.25 + p1.x * 0.75, p0.y * 0.25 + p1.y * 0.75⟩]

/-- `ChaikinCurve::chaikin_step`: one corner-cutting pass over an open
polyline.  Inputs of length ≤ 2 are returned unchanged; otherwise the
first point, then `q`/`r` for every consecutive pair in order, then the
last point. -/
def chaikin_step (points : List Point) : List Point :=
  if points.length ≤ 2 then points
  else
    points.head?.toList
      ++ (points.zip points.tail).flatMap (fun pr => chaikin_pair pr.1 pr.2)
      ++ points.getLast?.toList

/-- The loop of `generate_animation_steps`: run `n` more subdivision
passes starting from `cur`, appending each result to `acc`. -/
def gen_steps_loop : Nat → List Point → List (List Point) → List (List Point)
  | 0, _, acc => acc
  | n + 1, cur, acc =>
      gen_steps_loop n (chaikin_step cur) (acc ++ [chaikin_step cur])

/-- `ChaikinCurve::generate_animation_steps`: level 0 is the raw control
point positions; each of the `MAX_ANIMATION_STEPS` further levels is one
`chaikin_step` of the previous one. -/
def ChaikinCurve.generate_animation_steps (c : ChaikinCurve) : ChaikinCurve :=
  let initial := c.control_points.map (fun cp => cp.position)
  { c with
      animation_steps := gen_steps_loop MAX_ANIMATION_STEPS initial [initial] }

/-- `ChaikinCurve::start_animation` at monotonic time `now`. -/
def ChaikinCurve.start_animation (c : ChaikinCurve) (now : Nat) : ChaikinCurve :=
  if c.control_points.length ≤ 1 then c
  else
    let c1 := ChaikinCurve.generate_animation_steps c.reset_animation
    { c1 with animating := true, last_step_time := now }

/-- `ChaikinCurve::update_animation` at monotonic time `now`
(`last_step_time.elapsed()` is `now - last_step_time`). -/
def ChaikinCurve.update_animation (c : ChaikinCurve) (now : Nat) : ChaikinCurve :=
  if ¬c.animating ∨ c.animation_steps.isEmpty then c
  else if ANIMATION_STEP_DURATION ≤ now - c.last_step_time then
    { c with
        current_step := (c.current_step + 1) % c.animation_steps.length
        last_step_time := now }
  else c

/-- The squared-distance hit test of `select_point_at`:
`dx*dx + dy*dy <= POINT_RADIUS² `. -/
def hits (x y : ℚ) (p : ControlPoint) : Prop :=
  (p.position.x - x) * (p.position.x - x)
    + (p.position.y - y) * (p.position.y - y) ≤ POINT_RADIUS * POINT_RADIUS

instance (x y : ℚ) (p : ControlPoint) : Decidable (hits x y p) := by
  unfold hits; infer_instance

/-- The `for` loop of `select_point_at`: walk the points in insertion
order; mark the first hit selected and stop. -/
def select_loop (x y : ℚ) : List ControlPoint → List ControlPoint × Bool
  | [] => ([], false)
  | p :: rest =>
      if hits x y p then ({ p with selected := true } :: rest, true)
      else
        let res := select_loop x y rest
        (p :: res.1, res.2)

/-- `ChaikinCurve::select_point_at`. -/
def ChaikinCurve.select_point_at (c : ChaikinCurve) (x y : ℚ) :
    ChaikinCurve × Bool :=
  let res := select_loop x y c.control_points
  ({ c with control_points := res.1 }, res.2)

/-- `ChaikinCurve::deselect_all_points`. -/
def ChaikinCurve.deselect_all_points (c : ChaikinCurve) : ChaikinCurve :=
  { c with
      control_points :=
        c.control_points.map (fun p => { p with selected := false }) }

/-- `ChaikinCurve::move_selected_point`. -/
def ChaikinCurve.move_selected_point (c : ChaikinCurve) (x y : ℚ) :
    ChaikinCurve :=
  { c with
      control_points :=
        c.control_points.map
          (fun p => if p.selected then { p with position := ⟨x, y⟩ } else p) }

/-- `ChaikinCurve::get_current_points`.  The animation branch indexes
`animation_steps[current_step]`, which can panic in Rust; that access is
embedded with `List.get?`. -/
def ChaikinCurve.get_current_points (c : ChaikinCurve) : Option (List Point) :=
  if c.animating ∧ ¬c.animation_steps.isEmpty then
    c.animation_steps.get? c.current_step
  else if 2 ≤ c.control_points.length then
    some (c.control_points.map (fun cp => cp.position))
  else if c.control_points.length = 1 then
    match c.control_points.head? with
    | some cp => some [cp.position]
    | none => none
  else
    some []

/-- The mouse-press handler in `main`: a fresh left-button press either
selects an existing point or, if no point is hit, adds a new point and
resets the animation. -/
def handle_press (c : ChaikinCurve) (x y : ℚ) : ChaikinCurve :=
  let res := c.select_point_at x y
  if res.2 then res.1
  else ChaikinCurve.reset_animation (res.1.add_point x y)

/-- The drag handler in `main`: move every selected point to the mouse
position and, when an animation is active, regenerate the steps. -/
def handle_move (c : ChaikinCurve) (x y : ℚ) : ChaikinCurve :=
  let c1 := c.move_selected_point x y
  if c1.animating then c1.generate_animation_steps else c1

/-- `draw_point`: write `color` into the row-major pixel buffer at
`(x, y)` when the pixel is inside `[0, WIDTH) × [0, HEIGHT)`; otherwise
do nothing. -/
def draw_point (buffer : List Nat) (x y : Int) (color : Nat) : List Nat :=
  if 0 ≤ x ∧ x < (WIDTH : Int) ∧ 0 ≤ y ∧ y < (HEIGHT : Int) then
    buffer.set (y.toNat * WIDTH + x.toNat) color
  else buffer

/-- The `loop` body of `draw_line`, with explicit fuel.  Each iteration
plots `(x, y)`, breaks on reaching `(x1, y1)`, and otherwise advances the
Bresenham error accumulator; `none` models fuel exhaustion (the loop not
having terminated within `fuel` iterations).  The result collects, in
order, every pixel passed to `draw_point`. -/
def draw_line_loop (x1 y1 dx dy sx sy : Int) :
    Nat → Int → Int → Int → List (Int × Int) → Option (List (Int × Int))
  | 0, _, _, _, _ => none
  | fuel + 1, x, y, err, acc =>
      let acc2 := acc ++ [(x, y)]
      if x = x1 ∧ y = y1 then some acc2
      else
        let e2 := 2 * err
        if dy ≤ e2 ∧ x = x1 then some acc2
        else
          let err1 := if dy ≤ e2 then err + dy else err
          let x2 := if dy ≤ e2 then x + sx else x
          if e2 ≤ dx ∧ y = y1 then some acc2
          else
            let err2 := if e2 ≤ dx then err1 + dx else err1
            let y2 := if e2 ≤ dx then y + sy else y
            draw_line_loop x1 y1 dx dy sx sy fuel x2 y2 err2 acc2

/-- The pixels plotted by `draw_line` from `(x0, y0)` to `(x1, y1)`,
with fuel `|x1-x0| + |y1-y0| + 1` (one iteration per unit of Manhattan
distance plus the final one). -/
def draw_line_pixels (x0 y0 x1 y1 : Int) : Option (List (Int × Int)) :=
  let dx := |x1 - x0|
  let dy := -|y1 - y0|
  let sx : Int := if x0 < x1 then 1 else -1
  let sy : Int := if y0 < y1 then 1 else -1
  draw_line_loop x1 y1 dx dy sx sy
    ((x1 - x0).natAbs + (y1 - y0).natAbs + 1) x0 y0 (dx + dy) []

/-- `draw_line`: plot every pixel the Bresenham loop produces into the
buffer (unchanged if the loop does not terminate, which never happens). -/
def draw_line (buffer : List Nat) (x0 y0 x1 y1 : Int) (color : Nat) :
    List Nat :=
  match draw_line_pixels x0 y0 x1 y1 with
  | some pixels =>
      pixels.foldl (fun b p => draw_point b p.1 p.2 color) buffer
  | none => buffer

/-! ### Supporting lemmas -/

lemma tail_get? {α : Type _} (l : List α) (i : Nat) :
    l.tail.get? i = l.get? (i + 1) := by
  cases l <;> simp

lemma chaikin_pairs_length (l : List (Point × Point)) :
    (l.flatMap fun pr => chaikin_pair pr.1 pr.2).length = 2 * l.length := by
  induction l with
  | nil => rfl
  | cons hd t ih =>
      simp only [List.flatMap_cons, List.length_append, ih, List.length_cons]
      simp [chaikin_pair]; ring

lemma chaikin_pairs_get? (l : List (Point × Point)) (i : Nat)
    (pr : Point × Point) (h : l.get? i = some pr) :
    ((l.flatMap fun q => chaikin_pair q.1 q.2).get? (2 * i)
        = some ⟨pr.1.x * 0.75 + pr.2.x * 0.25, pr.1.y * 0.75 + pr.2.y * 0.25⟩)
    ∧ ((l.flatMap fun q => chaikin_pair q.1 q.2).get? (2 * i + 1)
        = some ⟨pr.1.x * 0.25 + pr.2.x * 0.75,
                pr.1.y * 0.25 + pr.2.y * 0.75⟩) := by
  induction l generalizing i with
  | nil => simp at h
  | cons hd t ih =>
      cases i with
      | zero =>
          simp only [List.get?_cons_zero, Option.some.injEq] at h
          subst h
          simp [chaikin_pair]
      | succ j =>
          simp only [List.get?_cons_succ] at h
          have h2 : 2 * (j + 1) = 2 * j + 1 + 1 := by ring
          rw [h2]
          simpa [chaikin_pair] using ih j h

lemma chaikin_step_of_big {pts : List Point} (h : 3 ≤ pts.length) :
    chaikin_step pts =
      pts.head?.toList
        ++ (pts.zip pts.tail).flatMap (fun pr => chaikin_pair pr.1 pr.2)
        ++ pts.getLast?.toList := by
  unfold chaikin_step
  rw [if_neg (by omega)]

lemma zip_tail_length (pts : List Point) (h : 3 ≤ pts.length) :
    (pts.zip pts.tail).length = pts.length - 1 := by
  rw [List.length_zip, List.length_tail]
  omega

/-- C1: `chaikin_step` satisfies its full contract: inputs of length ≤ 2
are returned unchanged; for length ≥ 3 the output has length
`2 + 2*(n-1)`, keeps the first and last input points exactly, and for
every consecutive input pair `(p0, p1)` at index `i` emits
`q = 0.75*p0 + 0.25*p1` at position `2i+1` and `r = 0.25*p0 + 0.75*p1`
at position `2i+2` (`q` before `r`). -/
theorem C1_chaikin_step_contract (pts : List Point) :
    (pts.length ≤ 2 → chaikin_step pts = pts) ∧
    (3 ≤ pts.length →
      (chaikin_step pts).length = 2 + 2 * (pts.length - 1) ∧
      (chaikin_step pts).head? = pts.head? ∧
      (chaikin_step pts).getLast? = pts.getLast? ∧
      (∀ i p0 p1, pts.get? i = some p0 → pts.get? (i + 1) = some p1 →
        (chaikin_step pts).get? (2 * i + 1)
            = some ⟨p0.x * 0.75 + p1.x * 0.25, p0.y * 0.75 + p1.y * 0.25⟩ ∧
        (chaikin_step pts).get? (2 * i + 2)
            = some ⟨p0.x * 0.25 + p1.x * 0.75,
                    p0.y * 0.25 + p1.y * 0.75⟩)) := by
  constructor
  · intro h
    unfold chaikin_step
    rw [if_pos h]
  · intro h
    have hne : pts ≠ [] := by
      intro hh; rw [hh] at h; simp at h
    obtain ⟨p, t, hpt⟩ : ∃ p t, pts = p :: t := by
      cases pts with
      | nil => exact absurd rfl hne
      | cons a b => exact ⟨a, b, rfl⟩
    have hstep := chaikin_step_of_big h
    have hF : (pts.zip pts.tail).length = pts.length - 1 := zip_tail_length pts h
    have hlast : ∃ q, pts.getLast? = some q :=
      ⟨pts.getLast hne, List.getLast?_eq_getLast_of_ne_nil hne⟩
    obtain ⟨q, hq⟩ := hlast
    have hFlen :
        ((pts.zip pts.tail).flatMap fun pr => chaikin_pair pr.1 pr.2).length
          = 2 * (pts.length - 1) := by
      rw [chaikin_pairs_length, hF]
    refine ⟨?_, ?_, ?_, ?_⟩
    · rw [hstep, hq, hpt]
      simp only [List.head?_cons, Option.toList_some, List.length_append,
        List.length_cons, List.length_nil]
      rw [hpt] at hFlen
      simp only [List.length_cons] at hFlen ⊢
      omega
    · rw [hstep, hpt]
      simp
    · rw [hstep, hq]
      rw [List.append_assoc]
      rw [List.getLast?_append_of_ne_nil _ (by simp)]
      rw [List.getLast?_append_of_ne_nil _ (by simp)]
      simp [hq]
    · intro i p0 p1 h0 h1
      have hi1 : i + 1 < pts.length := by
        rcases List.get?_eq_some.mp h1 with ⟨hlt, -⟩
        exact hlt
      have hzip : (pts.zip pts.tail).get? i = some (p0, p1) := by
        rw [List.get?_zip_eq_some]
        exact ⟨h0, by rw [tail_get?]; exact h1⟩
      have hget := chaikin_pairs_get? (pts.zip pts.tail) i (p0, p1) hzip
      have hb1 : 2 * i <
          ((pts.zip pts.tail).flatMap fun pr => chaikin_pair pr.1 pr.2).length := by
        rw [hFlen]; omega
      have hb2 : 2 * i + 1 <
          ((pts.zip pts.tail).flatMap fun pr => chaikin_pair pr.1 pr.2).length := by
        rw [hFlen]; omega
      rw [hstep, hpt]
      simp only [List.head?_cons, Option.toList_some, List.cons_append,
        List.nil_append, List.get?_cons_succ]
      constructor
      · rw [List.get?_append (by rw [← hpt]; exact hb1)]
        rw [← hpt]
        exact hget.1
      · rw [List.get?_append (by rw [← hpt]; exact hb2)]
        rw [← hpt]
        exact hget.2

lemma gen_steps_loop_eq (n : Nat) (cur : List Point) (acc : List (List Point)) :
    gen_steps_loop n cur acc
      = acc ++ (List.range n).map (fun k => chaikin_step^[k + 1] cur) := by
  induction n generalizing cur acc with
  | zero => simp [gen_steps_loop]
  | succ m ih =>
      rw [gen_steps_loop, ih, List.range_succ_eq_map]
      have hfun : (fun k => chaikin_step^[k + 1] (chaikin_step cur))
          = fun k => chaikin_step^[k + 1 + 1] cur := by
        funext k
        exact (Function.iterate_succ_apply chaikin_step (k + 1) cur).symm
      rw [hfun]
      simp [List.map_map, Function.comp_def]

lemma generate_steps_eq (c : ChaikinCurve) :
    c.generate_animation_steps.animation_steps
      = (List.range (MAX_ANIMATION_STEPS + 1)).map
          (fun k => chaikin_step^[k]
            (c.control_points.map fun cp => cp.position)) := by
  show gen_steps_loop MAX_ANIMATION_STEPS
      (c.control_points.map fun cp => cp.position)
      [c.control_points.map fun cp => cp.position] = _
  rw [gen_steps_loop_eq, List.range_succ_eq_map]
  simp [List.map_map, Function.comp_def]

lemma generate_steps_get? (c : ChaikinCurve) (k : Nat)
    (hk : k < MAX_ANIMATION_STEPS + 1) :
    c.generate_animation_steps.animation_steps.get? k
      = some (chaikin_step^[k] (c.control_points.map fun cp => cp.position)) := by
  rw [generate_steps_eq, List.get?_map, List.get?_range hk, Option.map_some']

/-- C2: `generate_animation_steps` produces exactly
`MAX_ANIMATION_STEPS + 1 = 8` levels, level 0 being the raw control-point
positions in insertion order and every level `k+1` being `chaikin_step`
of level `k`; on control points `(0,0), (10,0), (20,0)` level 1 is
`[(0,0), (2.5,0), (7.5,0), (12.5,0), (17.5,0), (20,0)]`. -/
theorem C2_generate_animation_steps (c : ChaikinCurve) :
    c.generate_animation_steps.animation_steps.length = MAX_ANIMATION_STEPS + 1
    ∧ c.generate_animation_steps.animation_steps.get? 0
        = some (c.control_points.map fun cp => cp.position)
    ∧ (∀ k, k < MAX_ANIMATION_STEPS →
        c.generate_animation_steps.animation_steps.get? (k + 1)
          = (c.generate_animation_steps.animation_steps.get? k).map chaikin_step)
    ∧ (((ChaikinCurve.new.add_point 0 0).add_point 10 0).add_point 20
          0).generate_animation_steps.animation_steps.get? 1
        = some [⟨0, 0⟩, ⟨2.5, 0⟩, ⟨7.5, 0⟩, ⟨12.5, 0⟩, ⟨17.5, 0⟩, ⟨20, 0⟩] := by
  refine ⟨?_, ?_, ?_, ?_⟩
  · rw [generate_steps_eq]; simp [MAX_ANIMATION_STEPS]
  · rw [generate_steps_get? c 0 (by norm_num [MAX_ANIMATION_STEPS])]
    simp
  · intro k hk
    rw [generate_steps_get? c (k + 1) (by omega),
      generate_steps_get? c k (by omega), Option.map_some',
      Function.iterate_succ_apply']
  · rw [generate_steps_get? _ 1 (by norm_num [MAX_ANIMATION_STEPS])]
    have : ((((ChaikinCurve.new.add_point 0 0).add_point 10 0).add_point 20
        0).control_points.map fun cp => cp.position)
          = [⟨0, 0⟩, ⟨10, 0⟩, ⟨20, 0⟩] := by
      simp [ChaikinCurve.new, ChaikinCurve.add_point, ControlPoint.new]
    rw [this, Function.iterate_one, chaikin_step_of_big (by simp)]
    simp [chaikin_pair]
    norm_num

/-- C2 witness: the universally-quantified successor-level property of
the theorem applied at the concrete model holding `(0,0), (10,0), (20,0)`
with `k = 0`. -/
theorem C2_generate_animation_steps_witness :
    (((ChaikinCurve.new.add_point 0 0).add_point 10 0).add_point 20
        0).generate_animation_steps.animation_steps.get? 1
      = ((((ChaikinCurve.new.add_point 0 0).add_point 10 0).add_point 20
            0).generate_animation_steps.animation_steps.get? 0).map chaikin_step :=
  (C2_generate_animation_steps
      (((ChaikinCurve.new.add_point 0 0).add_point 10 0).add_point 20
        0)).2.2.1 0 (by norm_num [MAX_ANIMATION_STEPS])

lemma select_loop_hit_iff (x y : ℚ) (l : List ControlPoint) :
    (select_loop x y l).2 = true ↔ ∃ p ∈ l, hits x y p := by
  induction l with
  | nil => simp [select_loop]
  | cons p t ih =>
      by_cases hp : hits x y p
      · constructor
        · intro _
          exact ⟨p, List.mem_cons_self _ _, hp⟩
        · intro _
          simp [select_loop, if_pos hp]
      · simp only [select_loop, if_neg hp, List.mem_cons]
        rw [ih]
        constructor
        · rintro ⟨q, hq, hh⟩; exact ⟨q, Or.inr hq, hh⟩
        · rintro ⟨q, hq | hq, hh⟩
          · exact absurd (hq ▸ hh) hp
          · exact ⟨q, hq, hh⟩

lemma select_loop_miss (x y : ℚ) (l : List ControlPoint)
    (h : (select_loop x y l).2 = false) : (select_loop x y l).1 = l := by
  induction l with
  | nil => rfl
  | cons p t ih =>
      by_cases hp : hits x y p
      · simp [select_loop, if_pos hp] at h
      · simp only [select_loop, if_neg hp] at h ⊢
        rw [ih h]

lemma select_loop_first_hit (x y : ℚ) (l : List ControlPoint) (i : Nat)
    (p : ControlPoint) (hget : l.get? i = some p) (hp : hits x y p)
    (hmin : ∀ j q, j < i → l.get? j = some q → ¬hits x y q) :
    (select_loop x y l).2 = true
      ∧ (select_loop x y l).1 = l.set i { p with selected := true } := by
  induction l generalizing i with
  | nil => simp at hget
  | cons hd t ih =>
      cases i with
      | zero =>
          simp only [List.get?_cons_zero, Option.some.injEq] at hget
          subst hget
          simp [select_loop, if_pos hp]
      | succ j =>
          have hhd : ¬hits x y hd := hmin 0 hd (Nat.succ_pos j) rfl
          simp only [List.get?_cons_succ] at hget
          have hmin' : ∀ j' q, j' < j → t.get? j' = some q → ¬hits x y q :=
            fun j' q hj hq => hmin (j' + 1) q (by omega) (by simpa using hq)
          have hrec := ih j hget hmin'
          simp only [select_loop, if_neg hhd, List.set_cons_succ]
          exact ⟨hrec.1, by rw [hrec.2]⟩

/-- C4: `select_point_at (x, y)` returns true iff some control point is
within squared distance `POINT_RADIUS² = 25` of `(x, y)`; on a hit
exactly the earliest-inserted qualifying point gets its `selected` flag
set (everything else, including order and positions, unchanged); on a
miss — in particular on an empty point set — nothing is mutated. -/
theorem C4_select_point_at (c : ChaikinCurve) (x y : ℚ) :
    ((c.select_point_at x y).2 = true ↔ ∃ p ∈ c.control_points, hits x y p)
    ∧ ((c.select_point_at x y).2 = false → c.select_point_at x y = (c, false))
    ∧ (∀ i p, c.control_points.get? i = some p → hits x y p →
        (∀ j q, j < i → c.control_points.get? j = some q → ¬hits x y q) →
        (c.select_point_at x y).2 = true
          ∧ (c.select_point_at x y).1.control_points
              = c.control_points.set i { p with selected := true }
          ∧ (c.select_point_at x y).1.animation_steps = c.animation_steps
          ∧ (c.select_point_at x y).1.current_step = c.current_step
          ∧ (c.select_point_at x y).1.animating = c.animating)
    ∧ (c.control_points = [] → c.select_point_at x y = (c, false)) := by
  have hmiss : (c.select_point_at x y).2 = false →
      c.select_point_at x y = (c, false) := by
    intro h
    have h' : (select_loop x y c.control_points).2 = false := h
    have h1 := select_loop_miss x y c.control_points h'
    show ({ c with control_points := (select_loop x y c.control_points).1 },
        (select_loop x y c.control_points).2) = (c, false)
    rw [h1, h']
  refine ⟨select_loop_hit_iff x y c.control_points, hmiss, ?_, ?_⟩
  · intro i p hget hp hmin
    have h := select_loop_first_hit x y c.control_points i p hget hp hmin
    exact ⟨h.1, h.2, rfl, rfl, rfl⟩
  · intro h
    apply hmiss
    by_contra hb
    rw [Bool.not_eq_false] at hb
    rcases (select_loop_hit_iff x y c.control_points).mp hb with ⟨p, hp, -⟩
    rw [h] at hp
    simp at hp

/-- C4 witness: on the model holding `(0,0)` and `(10,0)`, selecting at
`(3, 4)` (distance² = 25 from the first point) marks exactly the first
point selected; selecting at `(100, 100)` mutates nothing; selecting on
the empty model returns false. -/
theorem C4_select_point_at_witness :
    ((((ChaikinCurve.new.add_point 0 0).add_point 10 0).select_point_at 3
        4).2 = true
      ∧ (((ChaikinCurve.new.add_point 0 0).add_point 10 0).select_point_at 3
          4).1.control_points
        = [⟨⟨0, 0⟩, true⟩, ⟨⟨10, 0⟩, false⟩])
    ∧ (((ChaikinCurve.new.add_point 0 0).add_point 10 0).select_point_at 100
        100
        = ((ChaikinCurve.new.add_point 0 0).add_point 10 0, false))
    ∧ ChaikinCurve.new.select_point_at 5 5 = (ChaikinCurve.new, false) := by
  have hpts : ((ChaikinCurve.new.add_point 0 0).add_point 10 0).control_points
      = [⟨⟨0, 0⟩, false⟩, ⟨⟨10, 0⟩, false⟩] := by
    simp [ChaikinCurve.new, ChaikinCurve.add_point, ControlPoint.new]
  refine ⟨?_, ?_, ?_⟩
  · have h := (C4_select_point_at
        ((ChaikinCurve.new.add_point 0 0).add_point 10 0) 3 4).2.2.1 0
        ⟨⟨0, 0⟩, false⟩ (by rw [hpts]; rfl) ?_ ?_
    · refine ⟨h.1, ?_⟩
      rw [h.2.1, hpts]
      rfl
    · show hits 3 4 ⟨⟨0, 0⟩, false⟩
      unfold hits POINT_RADIUS
      norm_num
    · intro j q hj
      omega
  · apply (C4_select_point_at
        ((ChaikinCurve.new.add_point 0 0).add_point 10 0) 100 100).2.1
    have := (C4_select_point_at
        ((ChaikinCurve.new.add_point 0 0).add_point 10 0) 100 100).1
    rw [hpts] at this
    by_contra hb
    rw [Bool.not_eq_false] at hb
    rcases this.mp hb with ⟨p, hmem, hh⟩
    simp only [List.mem_cons, List.not_mem_nil, or_false] at hmem
    unfold hits POINT_RADIUS at hh
    rcases hmem with h1 | h1 <;> subst h1 <;> norm_num at hh
  · exact (C4_select_point_at ChaikinCurve.new 5 5).2.2.2 rfl

lemma update_animation_noop (c : ChaikinCurve) (now : Nat)
    (h : c.animating = false ∨ c.animation_steps = []) :
    c.update_animation now = c := by
  unfold ChaikinCurve.update_animation
  rw [if_pos]
  rcases h with h | h
  · exact Or.inl (by rw [h]; exact Bool.false_ne_true)
  · exact Or.inr (by rw [h]; rfl)

lemma update_animation_early (c : ChaikinCurve) (now : Nat)
    (h1 : c.animating = true) (h2 : c.animation_steps ≠ [])
    (h3 : now - c.last_step_time < ANIMATION_STEP_DURATION) :
    c.update_animation now = c := by
  unfold ChaikinCurve.update_animation
  rw [if_neg, if_neg (by omega)]
  rw [h1]
  simp [List.isEmpty_iff, h2]

lemma update_animation_fire (c : ChaikinCurve) (now : Nat)
    (h1 : c.animating = true) (h2 : c.animation_steps ≠ [])
    (h3 : ANIMATION_STEP_DURATION ≤ now - c.last_step_time) :
    c.update_animation now =
      { c with
          current_step := (c.current_step + 1) % c.animation_steps.length
          last_step_time := now } := by
  unfold ChaikinCurve.update_animation
  rw [if_neg, if_pos h3]
  rw [h1]
  simp [List.isEmpty_iff, h2]

/-- C5: `update_animation` is a no-op when not animating or without
steps; with elapsed time below 500 ms it changes nothing; with elapsed
time at least 500 ms it advances `current_step` by exactly one modulo
the number of levels, resets the step timer and touches nothing else —
so at most one step advances per call no matter how large the elapsed
time is. -/
theorem C5_update_animation (c : ChaikinCurve) (now : Nat) :
    ((c.animating = false ∨ c.animation_steps = []) →
      c.update_animation now = c)
    ∧ (c.animating = true → c.animation_steps ≠ [] →
        now - c.last_step_time < ANIMATION_STEP_DURATION →
        c.update_animation now = c)
    ∧ (c.animating = true → c.animation_steps ≠ [] →
        ANIMATION_STEP_DURATION ≤ now - c.last_step_time →
        (c.update_animation now).current_step
            = (c.current_step + 1) % c.animation_steps.length
        ∧ (c.update_animation now).last_step_time = now
        ∧ (c.update_animation now).control_points = c.control_points
        ∧ (c.update_animation now).animation_steps = c.animation_steps
        ∧ (c.update_animation now).animating = c.animating) := by
  refine ⟨update_animation_noop c now, update_animation_early c now, ?_⟩
  intro h1 h2 h3
  rw [update_animation_fire c now h1 h2 h3]
  exact ⟨rfl, rfl, rfl, rfl, rfl⟩

/-- C5 witness: on an animating model with two one-point levels,
`current_step = 1` and `last_step_time = 0`, an update at 300 ms changes
nothing, while a single update at 1500 ms (three step durations)
advances by exactly one: `(1 + 1) % 2 = 0`. -/
theorem C5_update_animation_witness :
    (ChaikinCurve.mk [] [[⟨0, 0⟩], [⟨1, 1⟩]] 1 true 0).update_animation 300
        = ChaikinCurve.mk [] [[⟨0, 0⟩], [⟨1, 1⟩]] 1 true 0
    ∧ ((ChaikinCurve.mk [] [[⟨0, 0⟩], [⟨1, 1⟩]] 1 true 0).update_animation
        1500).current_step = 0
    ∧ ((ChaikinCurve.mk [] [[⟨0, 0⟩], [⟨1, 1⟩]] 1 true
        0).update_animation 1500).last_step_time = 1500 := by
  have h := C5_update_animation
      (ChaikinCurve.mk [] [[⟨0, 0⟩], [⟨1, 1⟩]] 1 true 0) 1500
  have hf := h.2.2 rfl (by simp)
      (by norm_num [ANIMATION_STEP_DURATION])
  refine ⟨?_, ?_, hf.2.1⟩
  · exact (C5_update_animation
        (ChaikinCurve.mk [] [[⟨0, 0⟩], [⟨1, 1⟩]] 1 true 0) 300).2.1 rfl
      (by simp) (by norm_num [ANIMATION_STEP_DURATION])
  · rw [hf.1]
    rfl

/-- C6: `get_current_points` obeys the four-case derivation rule —
animating with steps yields the level at `current_step`; otherwise ≥ 2
control points yield the raw positions in insertion order, exactly one
yields that single point, and none yields the empty sequence; in
particular after adding `(0,0), (10,0), (20,0)` without animating it
returns exactly those points in order. -/
theorem C6_get_current_points (c : ChaikinCurve) :
    (c.animating = true → c.animation_steps ≠ [] →
      c.get_current_points = c.animation_steps.get? c.current_step)
    ∧ ((c.animating = false ∨ c.animation_steps = []) →
        2 ≤ c.control_points.length →
        c.get_current_points
          = some (c.control_points.map fun cp => cp.position))
    ∧ (∀ p, (c.animating = false ∨ c.animation_steps = []) →
        c.control_points = [p] → c.get_current_points = some [p.position])
    ∧ ((c.animating = false ∨ c.animation_steps = []) →
        c.control_points = [] → c.get_current_points = some [])
    ∧ (((ChaikinCurve.new.add_point 0 0).add_point 10 0).add_point 20
          0).get_current_points = some [⟨0, 0⟩, ⟨10, 0⟩, ⟨20, 0⟩] := by
  have hcond : ∀ h : c.animating = false ∨ c.animation_steps = [],
      ¬(c.animating = true ∧ ¬c.animation_steps.isEmpty) := by
    rintro (h | h) ⟨ha, hs⟩
    · rw [h] at ha; exact Bool.false_ne_true ha
    · rw [h] at hs; exact hs rfl
  refine ⟨?_, ?_, ?_, ?_, ?_⟩
  · intro h1 h2
    unfold ChaikinCurve.get_current_points
    rw [if_pos ⟨h1, by simp [List.isEmpty_iff, h2]⟩]
  · intro h h2
    unfold ChaikinCurve.get_current_points
    rw [if_neg (hcond h), if_pos h2]
  · intro p h hp
    unfold ChaikinCurve.get_current_points
    rw [if_neg (hcond h), if_neg (by rw [hp]; norm_num), if_pos (by rw [hp]; rfl)]
    rw [hp]
    rfl
  · intro h hp
    unfold ChaikinCurve.get_current_points
    rw [if_neg (hcond h), if_neg (by rw [hp]; norm_num),
      if_neg (by rw [hp]; norm_num)]
  · simp [ChaikinCurve.get_current_points, ChaikinCurve.new,
      ChaikinCurve.add_point, ControlPoint.new]

/-- C6 witness: the four cases applied at concrete models — an
animating model with two levels showing level `current_step = 1`, the
raw-positions case on two points, the singleton case, and the empty
case. -/
theorem C6_get_current_points_witness :
    (ChaikinCurve.mk [] [[⟨0, 0⟩], [⟨1, 1⟩]] 1 true 0).get_current_points
        = some [⟨1, 1⟩]
    ∧ (ChaikinCurve.mk [⟨⟨0, 0⟩, false⟩, ⟨⟨10, 0⟩, false⟩] [] 0 false
        0).get_current_points = some [⟨0, 0⟩, ⟨10, 0⟩]
    ∧ (ChaikinCurve.mk [⟨⟨7, 8⟩, false⟩] [] 0 false 0).get_current_points
        = some [⟨7, 8⟩]
    ∧ ChaikinCurve.new.get_current_points = some [] := by
  refine ⟨?_, ?_, ?_, ?_⟩
  · rw [(C6_get_current_points
        (ChaikinCurve.mk [] [[⟨0, 0⟩], [⟨1, 1⟩]] 1 true 0)).1 rfl (by simp)]
    rfl
  · rw [(C6_get_current_points
        (ChaikinCurve.mk [⟨⟨0, 0⟩, false⟩, ⟨⟨10, 0⟩, false⟩] [] 0 false
          0)).2.1 (Or.inl rfl) (by norm_num)]
    rfl
  · exact (C6_get_current_points
        (ChaikinCurve.mk [⟨⟨7, 8⟩, false⟩] [] 0 false 0)).2.2.1
      ⟨⟨7, 8⟩, false⟩ (Or.inl rfl) rfl
  · exact (C6_get_current_points ChaikinCurve.new).2.2.2.1 (Or.inl rfl) rfl

lemma start_animation_big (c : ChaikinCurve) (now : Nat)
    (h : 2 ≤ c.control_points.length) :
    c.start_animation now =
      { ChaikinCurve.generate_animation_steps c.reset_animation with
          animating := true, last_step_time := now } := by
  unfold ChaikinCurve.start_animation
  rw [if_neg (by omega)]

/-- C7: `start_animation` with fewer than 2 control points leaves the
whole state unchanged; with at least 2 it sets `animating`, resets
`current_step` to 0, records `now` as the step-timer reference, keeps
the control points, and regenerates the full 8-level step sequence from
the current control points (level 0 = raw positions, each next level one
`chaikin_step`). -/
theorem C7_start_animation (c : ChaikinCurve) (now : Nat) :
    (c.control_points.length ≤ 1 → c.start_animation now = c)
    ∧ (2 ≤ c.control_points.length →
        (c.start_animation now).animating = true
        ∧ (c.start_animation now).current_step = 0
        ∧ (c.start_animation now).last_step_time = now
        ∧ (c.start_animation now).control_points = c.control_points
        ∧ (c.start_animation now).animation_steps.length
            = MAX_ANIMATION_STEPS + 1
        ∧ (c.start_animation now).animation_steps.get? 0
            = some (c.control_points.map fun cp => cp.position)
        ∧ ∀ k, k < MAX_ANIMATION_STEPS →
            (c.start_animation now).animation_steps.get? (k + 1)
              = ((c.start_animation now).animation_steps.get? k).map
                  chaikin_step) := by
  constructor
  · intro h
    unfold ChaikinCurve.start_animation
    rw [if_pos h]
  · intro h
    rw [start_animation_big c now h]
    refine ⟨rfl, rfl, rfl, rfl, ?_, ?_, ?_⟩
    · show (ChaikinCurve.generate_animation_steps
          c.reset_animation).animation_steps.length = _
      rw [generate_steps_eq]
      simp [MAX_ANIMATION_STEPS]
    · show (ChaikinCurve.generate_animation_steps
          c.reset_animation).animation_steps.get? 0 = _
      rw [generate_steps_get? _ 0 (by norm_num [MAX_ANIMATION_STEPS])]
      rfl
    · intro k hk
      show (ChaikinCurve.generate_animation_steps
          c.reset_animation).animation_steps.get? (k + 1)
        = ((ChaikinCurve.generate_animation_steps
            c.reset_animation).animation_steps.get? k).map chaikin_step
      rw [generate_steps_get? _ (k + 1) (by omega),
        generate_steps_get? _ k (by omega), Option.map_some',
        Function.iterate_succ_apply']

/-- C7 witness: starting on a single point changes nothing; starting on
two points at time 42 animates at step 0 with 8 levels and timer 42. -/
theorem C7_start_animation_witness :
    (ChaikinCurve.new.add_point 0 0).start_animation 42
        = ChaikinCurve.new.add_point 0 0
    ∧ (((ChaikinCurve.new.add_point 0 0).add_point 10 0).start_animation
        42).animating = true
    ∧ (((ChaikinCurve.new.add_point 0 0).add_point 10 0).start_animation
        42).current_step = 0
    ∧ (((ChaikinCurve.new.add_point 0 0).add_point 10 0).start_animation
        42).last_step_time = 42
    ∧ (((ChaikinCurve.new.add_point 0 0).add_point 10 0).start_animation
        42).animation_steps.length = MAX_ANIMATION_STEPS + 1 := by
  have h2 : 2 ≤ ((ChaikinCurve.new.add_point 0 0).add_point
      10 0).control_points.length := by
    simp [ChaikinCurve.new, ChaikinCurve.add_point]
  have h := (C7_start_animation
      ((ChaikinCurve.new.add_point 0 0).add_point 10 0) 42).2 h2
  refine ⟨?_, h.1, h.2.1, h.2.2.1, h.2.2.2.2.1⟩
  exact (C7_start_animation (ChaikinCurve.new.add_point 0 0) 42).1
    (by simp [ChaikinCurve.new, ChaikinCurve.add_point])

lemma update_fire_chain (c : ChaikinCurve) (now : Nat)
    (h1 : c.animating = true) (h2 : c.animation_steps ≠ [])
    (h3 : ANIMATION_STEP_DURATION ≤ now - c.last_step_time) :
    (c.update_animation now).current_step
        = (c.current_step + 1) % c.animation_steps.length
    ∧ (c.update_animation now).animating = true
    ∧ (c.update_animation now).animation_steps ≠ []
    ∧ (c.update_animation now).animation_steps.length
        = c.animation_steps.length
    ∧ (c.update_animation now).last_step_time = now := by
  rw [update_animation_fire c now h1 h2 h3]
  exact ⟨rfl, h1, h2, rfl, rfl⟩

lemma select_point_at_fields (c : ChaikinCurve) (x y : ℚ) :
    (c.select_point_at x y).1.animation_steps = c.animation_steps
    ∧ (c.select_point_at x y).1.current_step = c.current_step
    ∧ (c.select_point_at x y).1.animating = c.animating
    ∧ (c.select_point_at x y).1.last_step_time = c.last_step_time :=
  ⟨rfl, rfl, rfl, rfl⟩

lemma start_animation_fields (c : ChaikinCurve) (now : Nat)
    (h : 2 ≤ c.control_points.length) :
    (c.start_animation now).animating = true
    ∧ (c.start_animation now).current_step = 0
    ∧ (c.start_animation now).last_step_time = now
    ∧ (c.start_animation now).control_points = c.control_points
    ∧ (c.start_animation now).animation_steps.length
        = MAX_ANIMATION_STEPS + 1 := by
  rw [start_animation_big c now h]
  refine ⟨rfl, rfl, rfl, rfl, ?_⟩
  show (ChaikinCurve.generate_animation_steps
      c.reset_animation).animation_steps.length = _
  rw [generate_steps_eq]
  simp [MAX_ANIMATION_STEPS]

lemma handle_move_current_step (c : ChaikinCurve) (x y : ℚ) :
    (handle_move c x y).current_step = c.current_step := by
  unfold handle_move
  by_cases hb : (c.move_selected_point x y).animating = true
  · rw [if_pos hb]
    rfl
  · rw [if_neg hb]
    rfl

lemma handle_move_animating (c : ChaikinCurve) (x y : ℚ)
    (h : c.animating = true) :
    handle_move c x y = (c.move_selected_point x y).generate_animation_steps := by
  unfold handle_move
  rw [if_pos (show (c.move_selected_point x y).animating = true from h)]

/-- C3 session, stage 0: add `(0,0), (10,0), (20,0)`. -/
def c3_s0 : ChaikinCurve :=
  ((ChaikinCurve.new.add_point 0 0).add_point 10 0).add_point 20 0

/-- C3 session, stage 1: start the animation at time 0. -/
def c3_s1 : ChaikinCurve := c3_s0.start_animation 0

/-- C3 session, stages 2–4: three step periods elapse. -/
def c3_u1 : ChaikinCurve := c3_s1.update_animation 500

def c3_u2 : ChaikinCurve := c3_u1.update_animation 1000

def c3_u3 : ChaikinCurve := c3_u2.update_animation 1500

/-- C3 session, final stage: press on the first control point,
selecting it, with the animation active at `current_step = 3`. -/
def c3_scenario : ChaikinCurve := (c3_u3.select_point_at 0 0).1

lemma c3_s1_spec : c3_s1.animating = true ∧ c3_s1.current_step = 0
    ∧ c3_s1.last_step_time = 0
    ∧ c3_s1.animation_steps.length = MAX_ANIMATION_STEPS + 1 := by
  have h := start_animation_fields c3_s0 0
      (by simp [c3_s0, ChaikinCurve.new, ChaikinCurve.add_point])
  exact ⟨h.1, h.2.1, h.2.2.1, h.2.2.2.2⟩

lemma c3_s1_ne : c3_s1.animation_steps ≠ [] := by
  intro h
  have hh := c3_s1_spec.2.2.2
  rw [h] at hh
  simp [MAX_ANIMATION_STEPS] at hh

lemma c3_u1_spec : c3_u1.animating = true ∧ c3_u1.current_step = 1
    ∧ c3_u1.last_step_time = 500
    ∧ c3_u1.animation_steps.length = MAX_ANIMATION_STEPS + 1
    ∧ c3_u1.animation_steps ≠ [] := by
  have h := update_fire_chain c3_s1 500 c3_s1_spec.1 c3_s1_ne
      (by rw [c3_s1_spec.2.2.1]; norm_num [ANIMATION_STEP_DURATION])
  refine ⟨h.2.1, ?_, h.2.2.2.2, ?_, h.2.2.1⟩
  · show (c3_s1.update_animation 500).current_step = 1
    rw [h.1, c3_s1_spec.2.1, c3_s1_spec.2.2.2]
    norm_num [MAX_ANIMATION_STEPS]
  · show (c3_s1.update_animation 500).animation_steps.length = _
    rw [h.2.2.2.1, c3_s1_spec.2.2.2]

lemma c3_u2_spec : c3_u2.animating = true ∧ c3_u2.current_step = 2
    ∧ c3_u2.last_step_time = 1000
    ∧ c3_u2.animation_steps.length = MAX_ANIMATION_STEPS + 1
    ∧ c3_u2.animation_steps ≠ [] := by
  have h := update_fire_chain c3_u1 1000 c3_u1_spec.1 c3_u1_spec.2.2.2.2
      (by rw [c3_u1_spec.2.2.1]; norm_num [ANIMATION_STEP_DURATION])
  refine ⟨h.2.1, ?_, h.2.2.2.2, ?_, h.2.2.1⟩
  · show (c3_u1.update_animation 1000).current_step = 2
    rw [h.1, c3_u1_spec.2.1, c3_u1_spec.2.2.2.1]
    norm_num [MAX_ANIMATION_STEPS]
  · show (c3_u1.update_animation 1000).animation_steps.length = _
    rw [h.2.2.2.1, c3_u1_spec.2.2.2.1]

lemma c3_u3_spec : c3_u3.animating = true ∧ c3_u3.current_step = 3 := by
  have h := update_fire_chain c3_u2 1500 c3_u2_spec.1 c3_u2_spec.2.2.2.2
      (by rw [c3_u2_spec.2.2.1]; norm_num [ANIMATION_STEP_DURATION])
  refine ⟨h.2.1, ?_⟩
  show (c3_u2.update_animation 1500).current_step = 3
  rw [h.1, c3_u2_spec.2.1, c3_u2_spec.2.2.2.1]
  norm_num [MAX_ANIMATION_STEPS]

lemma c3_scenario_fields :
    c3_scenario.animating = true ∧ c3_scenario.current_step = 3 :=
  ⟨(select_point_at_fields c3_u3 0 0).2.2.1.trans c3_u3_spec.1,
   (select_point_at_fields c3_u3 0 0).2.1.trans c3_u3_spec.2⟩

/-- C3 counterexample: in a reachable session the animation is active at
`current_step = 3` with a selected control point; dragging it through
the `main`-loop move handler regenerates the 8 animation levels but
leaves `current_step` at 3 — it is *not* reset to 0. -/
theorem C3_counterexample :
    c3_scenario.animating = true
    ∧ c3_scenario.current_step = 3
    ∧ (handle_move c3_scenario 5 5).animation_steps.length
        = MAX_ANIMATION_STEPS + 1
    ∧ (handle_move c3_scenario 5 5).current_step = 3
    ∧ ¬(handle_move c3_scenario 5 5).current_step = 0 := by
  obtain ⟨hanim, hcs⟩ := c3_scenario_fields
  have hlen : (handle_move c3_scenario 5 5).animation_steps.length
      = MAX_ANIMATION_STEPS + 1 := by
    rw [handle_move_animating _ _ _ hanim, generate_steps_eq]
    simp [MAX_ANIMATION_STEPS]
  have hstep := (handle_move_current_step c3_scenario 5 5).trans hcs
  exact ⟨hanim, hcs, hlen, hstep, by rw [hstep]; norm_num⟩

/-- C3 (amended): adding a point resets the whole animation state
(`current_step = 0`, steps cleared, not animating); an explicit
`start_animation` resets `current_step` to 0 and regenerates the steps;
moving a selected point while an animation is active regenerates the
full `MAX_ANIMATION_STEPS + 1 = 8` levels from the current (moved)
control points but keeps `current_step` unchanged — the retained index
is still valid for the regenerated sequence, so the displayed level is
always computed from the current control points, though not necessarily
level 0. -/
theorem C3_regeneration_amended (c : ChaikinCurve) (x y : ℚ) (now : Nat) :
    ((c.select_point_at x y).2 = false →
      (handle_press c x y).current_step = 0
        ∧ (handle_press c x y).animation_steps = []
        ∧ (handle_press c x y).animating = false)
    ∧ (2 ≤ c.control_points.length → (c.start_animation now).current_step = 0)
    ∧ (handle_move c x y).current_step = c.current_step
    ∧ (c.animating = true →
        (handle_move c x y).animation_steps.length = MAX_ANIMATION_STEPS + 1
        ∧ (handle_move c x y).animation_steps.get? 0
            = some ((c.move_selected_point x y).control_points.map
                fun cp => cp.position)
        ∧ (c.current_step < MAX_ANIMATION_STEPS + 1 →
            (handle_move c x y).current_step
              < (handle_move c x y).animation_steps.length)) := by
  refine ⟨?_, ?_, handle_move_current_step c x y, ?_⟩
  · intro h
    unfold handle_press
    rw [if_neg (by rw [h]; exact Bool.false_ne_true)]
    exact ⟨rfl, rfl, rfl⟩
  · intro h
    exact (start_animation_fields c now h).2.1
  · intro h
    have hlen : (handle_move c x y).animation_steps.length
        = MAX_ANIMATION_STEPS + 1 := by
      rw [handle_move_animating c x y h, generate_steps_eq]
      simp [MAX_ANIMATION_STEPS]
    refine ⟨hlen, ?_, ?_⟩
    · rw [handle_move_animating c x y h,
        generate_steps_get? _ 0 (by norm_num [MAX_ANIMATION_STEPS])]
      rfl
    · intro hcs
      rw [hlen, handle_move_current_step c x y]
      exact hcs

/-- C3 (amended) witness: the amended statement applied at concrete
states — a press on empty space resets the animation state; a start on
two points resets the step index; a drag on an animating model with a
selected point keeps `current_step = 5` while regenerating 8 levels. -/
theorem C3_regeneration_amended_witness :
    (handle_press ChaikinCurve.new 1 2).current_step = 0
    ∧ ((ChaikinCurve.mk [⟨⟨0, 0⟩, false⟩, ⟨⟨10, 0⟩, false⟩] [] 0 false
        0).start_animation 9).current_step = 0
    ∧ (handle_move (ChaikinCurve.mk [⟨⟨0, 0⟩, true⟩, ⟨⟨10, 0⟩, false⟩]
        [[⟨0, 0⟩]] 5 true 0) 5 5).current_step = 5
    ∧ (handle_move (ChaikinCurve.mk [⟨⟨0, 0⟩, true⟩, ⟨⟨10, 0⟩, false⟩]
        [[⟨0, 0⟩]] 5 true 0) 5 5).animation_steps.length
      = MAX_ANIMATION_STEPS + 1 := by
  refine ⟨?_, ?_, ?_, ?_⟩
  · exact ((C3_regeneration_amended ChaikinCurve.new 1 2 0).1 rfl).1
  · exact (C3_regeneration_amended
      (ChaikinCurve.mk [⟨⟨0, 0⟩, false⟩, ⟨⟨10, 0⟩, false⟩] [] 0 false 0)
      1 2 9).2.1 (by norm_num)
  · exact (C3_regeneration_amended
      (ChaikinCurve.mk [⟨⟨0, 0⟩, true⟩, ⟨⟨10, 0⟩, false⟩] [[⟨0, 0⟩]] 5 true 0)
      5 5 0).2.2.1
  · exact ((C3_regeneration_amended
      (ChaikinCurve.mk [⟨⟨0, 0⟩, true⟩, ⟨⟨10, 0⟩, false⟩] [[⟨0, 0⟩]] 5 true 0)
      5 5 0).2.2.2 rfl).1

/-- C8: `draw_point` writes `color` to row-major index `y*WIDTH + x`
exactly when `(x, y) ∈ [0, WIDTH) × [0, HEIGHT)` — and that index is
always inside a full-size buffer, so no out-of-range access happens —
and is a no-op otherwise; in particular `(WIDTH-1, HEIGHT-1)` is
written, while `(WIDTH, 0)` and `(-1, y)` change nothing. -/
theorem C8_draw_point_clipping (buffer : List Nat) (x y : Int) (color : Nat)
    (hlen : buffer.length = WIDTH * HEIGHT) :
    (0 ≤ x → x < (WIDTH : Int) → 0 ≤ y → y < (HEIGHT : Int) →
      y.toNat * WIDTH + x.toNat < buffer.length
      ∧ draw_point buffer x y color
          = buffer.set (y.toNat * WIDTH + x.toNat) color
      ∧ (draw_point buffer x y color).get? (y.toNat * WIDTH + x.toNat)
          = some color)
    ∧ (¬(0 ≤ x ∧ x < (WIDTH : Int) ∧ 0 ≤ y ∧ y < (HEIGHT : Int)) →
        draw_point buffer x y color = buffer)
    ∧ (draw_point buffer ((WIDTH : Int) - 1) ((HEIGHT : Int) - 1)
        color).get? ((HEIGHT - 1) * WIDTH + (WIDTH - 1)) = some color
    ∧ draw_point buffer (WIDTH : Int) 0 color = buffer
    ∧ draw_point buffer (-1) y color = buffer := by
  have hidx : ∀ a b : Int, 0 ≤ a → a < (WIDTH : Int) → 0 ≤ b →
      b < (HEIGHT : Int) → b.toNat * WIDTH + a.toNat < buffer.length := by
    intro a b ha1 ha2 hb1 hb2
    rw [hlen]
    have ha : a.toNat < WIDTH := by
      simp [WIDTH] at ha2 ⊢
      omega
    have hb : b.toNat < HEIGHT := by
      simp [HEIGHT] at hb2 ⊢
      omega
    calc b.toNat * WIDTH + a.toNat < b.toNat * WIDTH + WIDTH := by omega
    _ = (b.toNat + 1) * WIDTH := by ring
    _ ≤ HEIGHT * WIDTH := Nat.mul_le_mul_right WIDTH (by omega)
    _ = WIDTH * HEIGHT := Nat.mul_comm _ _
  have hin : ∀ a b : Int, 0 ≤ a → a < (WIDTH : Int) → 0 ≤ b →
      b < (HEIGHT : Int) →
      draw_point buffer a b color = buffer.set (b.toNat * WIDTH + a.toNat)
        color := by
    intro a b ha1 ha2 hb1 hb2
    unfold draw_point
    rw [if_pos ⟨ha1, ha2, hb1, hb2⟩]
  refine ⟨?_, ?_, ?_, ?_, ?_⟩
  · intro h1 h2 h3 h4
    refine ⟨hidx x y h1 h2 h3 h4, hin x y h1 h2 h3 h4, ?_⟩
    rw [hin x y h1 h2 h3 h4]
    exact List.get?_set_eq_of_lt color (hidx x y h1 h2 h3 h4)
  · intro h
    unfold draw_point
    rw [if_neg h]
  · have h1 : (0 : Int) ≤ (WIDTH : Int) - 1 := by norm_num [WIDTH]
    have h2 : (WIDTH : Int) - 1 < (WIDTH : Int) := by norm_num
    have h3 : (0 : Int) ≤ (HEIGHT : Int) - 1 := by norm_num [HEIGHT]
    have h4 : (HEIGHT : Int) - 1 < (HEIGHT : Int) := by norm_num
    rw [hin _ _ h1 h2 h3 h4]
    have he : ((HEIGHT : Int) - 1).toNat * WIDTH + ((WIDTH : Int) - 1).toNat
        = (HEIGHT - 1) * WIDTH + (WIDTH - 1) := by
      norm_num [WIDTH, HEIGHT]
      decide
    rw [he]
    apply List.get?_set_eq_of_lt
    rw [← he]
    exact hidx _ _ h1 h2 h3 h4
  · unfold draw_point
    rw [if_neg]
    rintro ⟨-, h2, -, -⟩
    omega
  · unfold draw_point
    rw [if_neg]
    rintro ⟨h1, -⟩
    omega

/-- C8 witness: the theorem applied to the all-zero 800×600 buffer —
plotting at `(799, 599)` lands at the last index, and plotting at
`(800, 0)` leaves the buffer unchanged. -/
theorem C8_draw_point_clipping_witness :
    (draw_point (List.replicate (WIDTH * HEIGHT) 0) 799 599 7).get?
        (599 * WIDTH + 799) = some 7
    ∧ draw_point (List.replicate (WIDTH * HEIGHT) 0) 800 0 7
        = List.replicate (WIDTH * HEIGHT) 0 := by
  have h := C8_draw_point_clipping (List.replicate (WIDTH * HEIGHT) 0) 800 0 7
      (by simp)
  refine ⟨?_, h.2.2.2.1⟩
  have h2 := (C8_draw_point_clipping (List.replicate (WIDTH * HEIGHT) 0)
      799 599 7 (by simp)).2.2.1
  have e1 : ((WIDTH : Int) - 1) = (799 : Int) := by norm_num [WIDTH]
  have e2 : ((HEIGHT : Int) - 1) = (599 : Int) := by norm_num [HEIGHT]
  have e3 : (HEIGHT - 1) * WIDTH + (WIDTH - 1) = 599 * WIDTH + 799 := by
    norm_num [WIDTH, HEIGHT]
  rw [e1, e2, e3] at h2
  exact h2

lemma draw_line_loop_spec :
    ∀ (fuel : Nat) (a b rx ry sx sy x y x1 y1 err : Int)
      (acc : List (Int × Int)),
      (sx = 1 ∨ sx = -1) → (sy = 1 ∨ sy = -1) →
      0 ≤ rx → rx ≤ a → 0 ≤ ry → ry ≤ b →
      x1 = x + sx * rx → y1 = y + sy * ry →
      err = a - b + b * rx - a * ry →
      rx + ry < (fuel : Int) →
      ∃ l, draw_line_loop x1 y1 a (-b) sx sy fuel x y err acc
          = some (acc ++ (x, y) :: l)
        ∧ (x1, y1) ∈ (x, y) :: l := by
  intro fuel
  induction fuel with
  | zero =>
      intro a b rx ry sx sy x y x1 y1 err acc _ _ hrx0 _ hry0 _ _ _ _ hfuel
      exfalso
      omega
  | succ n ih =>
      intro a b rx ry sx sy x y x1 y1 err acc hsx hsy hrx0 hrxa hry0 hryb
        hx1 hy1 herr hfuel
      have ha0 : 0 ≤ a := le_trans hrx0 hrxa
      have hb0 : 0 ≤ b := le_trans hry0 hryb
      have hxiff : x = x1 ↔ rx = 0 := by
        constructor
        · intro h
          have hz : sx * rx = 0 := by rw [hx1] at h; linarith
          rcases hsx with hs | hs <;> rw [hs] at hz <;> linarith
        · intro h
          rw [hx1, h, mul_zero, add_zero]
      have hyiff : y = y1 ↔ ry = 0 := by
        constructor
        · intro h
          have hz : sy * ry = 0 := by rw [hy1] at h; linarith
          rcases hsy with hs | hs <;> rw [hs] at hz <;> linarith
        · intro h
          rw [hy1, h, mul_zero, add_zero]
      simp only [draw_line_loop]
      by_cases hend : x = x1 ∧ y = y1
      · rw [if_pos hend]
        refine ⟨[], rfl, ?_⟩
        rw [hend.1, hend.2]
        exact List.mem_cons_self _ _
      · rw [if_neg hend]
        have hcase : rx ≠ 0 ∨ ry ≠ 0 := by
          by_contra hc
          push_neg at hc
          exact hend ⟨hxiff.mpr hc.1, hyiff.mpr hc.2⟩
        have hB1 : -b ≤ 2 * err → x ≠ x1 := by
          intro hle hxx
          have hrx : rx = 0 := hxiff.mp hxx
          have hry : 1 ≤ ry := by
            rcases hcase with h | h
            · exact absurd hrx h
            · omega
          have hb1 : 1 ≤ b := by omega
          have h1 : err = a - b - a * ry := by rw [herr, hrx]; ring
          have h2 : a ≤ a * ry := le_mul_of_one_le_right ha0 hry
          linarith
        have hB2 : 2 * err ≤ a → y ≠ y1 := by
          intro hle hyy
          have hry : ry = 0 := hyiff.mp hyy
          have hrx : 1 ≤ rx := by
            rcases hcase with h | h
            · omega
            · exact absurd hry h
          have ha1 : 1 ≤ a := by omega
          have h1 : err = a - b + b * rx := by rw [herr, hry]; ring
          have h2 : b ≤ b * rx := le_mul_of_one_le_right hb0 hrx
          linarith
        have hB3 : ¬(-b ≤ 2 * err) → 2 * err ≤ a := by
          intro h
          omega
        rw [if_neg (fun hc => hB1 hc.1 hc.2),
          if_neg (fun hc => hB2 hc.1 hc.2)]
        by_cases hcx : -b ≤ 2 * err
        · have hxx := hB1 hcx
          have hrx1 : 1 ≤ rx := by
            by_contra hc
            exact hxx (hxiff.mpr (by omega))
          by_cases hcy : 2 * err ≤ a
          · -- both axes advance
            have hyy := hB2 hcy
            have hry1 : 1 ≤ ry := by
              by_contra hc
              exact hyy (hyiff.mpr (by omega))
            simp only [if_pos hcx, if_pos hcy]
            obtain ⟨l, hl, hmem⟩ := ih a b (rx - 1) (ry - 1) sx sy (x + sx)
              (y + sy) x1 y1 (err + -b + a) (acc ++ [(x, y)]) hsx hsy
              (by omega) (by omega) (by omega) (by omega)
              (by rw [hx1]; ring) (by rw [hy1]; ring)
              (by rw [herr]; ring) (by omega)
            refine ⟨(x + sx, y + sy) :: l, ?_, ?_⟩
            · rw [hl]
              simp
            · exact List.mem_cons_of_mem _ hmem
          · -- only x advances
            simp only [if_pos hcx, if_neg hcy]
            obtain ⟨l, hl, hmem⟩ := ih a b (rx - 1) ry sx sy (x + sx)
              y x1 y1 (err + -b) (acc ++ [(x, y)]) hsx hsy
              (by omega) (by omega) (by omega) (by omega)
              (by rw [hx1]; ring) hy1
              (by rw [herr]; ring) (by omega)
            refine ⟨(x + sx, y) :: l, ?_, ?_⟩
            · rw [hl]
              simp
            · exact List.mem_cons_of_mem _ hmem
        · -- only y advances
          have hcy : 2 * err ≤ a := hB3 hcx
          have hyy := hB2 hcy
          have hry1 : 1 ≤ ry := by
            by_contra hc
            exact hyy (hyiff.mpr (by omega))
          simp only [if_neg hcx, if_pos hcy]
          obtain ⟨l, hl, hmem⟩ := ih a b rx (ry - 1) sx sy x
            (y + sy) x1 y1 (err + a) (acc ++ [(x, y)]) hsx hsy
            (by omega) (by omega) (by omega) (by omega)
            hx1 (by rw [hy1]; ring)
            (by rw [herr]; ring) (by omega)
          refine ⟨(x, y + sy) :: l, ?_, ?_⟩
          · rw [hl]
            simp
          · exact List.mem_cons_of_mem _ hmem

lemma draw_line_pixels_spec (x0 y0 x1 y1 : Int) :
    ∃ l, draw_line_pixels x0 y0 x1 y1 = some ((x0, y0) :: l)
      ∧ (x1, y1) ∈ (x0, y0) :: l := by
  have hsx : (if x0 < x1 then (1 : Int) else -1) = 1
      ∨ (if x0 < x1 then (1 : Int) else -1) = -1 := by
    split
    · exact Or.inl rfl
    · exact Or.inr rfl
  have hsy : (if y0 < y1 then (1 : Int) else -1) = 1
      ∨ (if y0 < y1 then (1 : Int) else -1) = -1 := by
    split
    · exact Or.inl rfl
    · exact Or.inr rfl
  have hx1 : x1 = x0 + (if x0 < x1 then (1 : Int) else -1) * |x1 - x0| := by
    by_cases h : x0 < x1
    · rw [if_pos h, abs_of_pos (by omega)]
      ring
    · rw [if_neg h, abs_of_nonpos (by omega)]
      ring
  have hy1 : y1 = y0 + (if y0 < y1 then (1 : Int) else -1) * |y1 - y0| := by
    by_cases h : y0 < y1
    · rw [if_pos h, abs_of_pos (by omega)]
      ring
    · rw [if_neg h, abs_of_nonpos (by omega)]
      ring
  have hfuel : |x1 - x0| + |y1 - y0|
      < (((x1 - x0).natAbs + (y1 - y0).natAbs + 1 : Nat) : Int) := by
    rw [Int.abs_eq_natAbs, Int.abs_eq_natAbs]
    push_cast
    omega
  obtain ⟨l, hl, hmem⟩ := draw_line_loop_spec
    ((x1 - x0).natAbs + (y1 - y0).natAbs + 1)
    |x1 - x0| |y1 - y0| |x1 - x0| |y1 - y0|
    (if x0 < x1 then (1 : Int) else -1) (if y0 < y1 then (1 : Int) else -1)
    x0 y0 x1 y1 (|x1 - x0| + -|y1 - y0|) []
    hsx hsy (abs_nonneg _) le_rfl (abs_nonneg _) le_rfl hx1 hy1
    (by ring) hfuel
  refine ⟨l, ?_, hmem⟩
  show draw_line_loop x1 y1 |x1 - x0| (-|y1 - y0|)
      (if x0 < x1 then (1 : Int) else -1) (if y0 < y1 then (1 : Int) else -1)
      ((x1 - x0).natAbs + (y1 - y0).natAbs + 1) x0 y0
      (|x1 - x0| + -|y1 - y0|) [] = some ((x0, y0) :: l)
  rw [hl]
  simp

/-- C10: the Bresenham loop of `draw_line` terminates for every pair of
integer endpoints: within `|x1-x0| + |y1-y0| + 1` iterations it always
reaches a `break` (the fuelled embedding returns `some`, never
exhausting its fuel), for steep, shallow and degenerate lines alike. -/
theorem C10_draw_line_terminates (x0 y0 x1 y1 : Int) :
    (draw_line_pixels x0 y0 x1 y1).isSome := by
  obtain ⟨l, hl, -⟩ := draw_line_pixels_spec x0 y0 x1 y1
  rw [hl]
  rfl

/-- C9: `draw_line` plots both endpoints inclusively — the pixel
sequence it hands to `draw_point` starts at `(x0, y0)` and contains
`(x1, y1)` — and for coincident endpoints it degenerates to plotting
exactly that single point. -/
theorem C9_draw_line_endpoints (x0 y0 x1 y1 : Int) :
    ∃ l, draw_line_pixels x0 y0 x1 y1 = some l
      ∧ (x0, y0) ∈ l ∧ (x1, y1) ∈ l
      ∧ (x0 = x1 → y0 = y1 → l = [(x0, y0)])
      ∧ ∀ buffer color,
          draw_line buffer x0 y0 x1 y1 color
            = l.foldl (fun b p => draw_point b p.1 p.2 color) buffer := by
  obtain ⟨l, hl, hmem⟩ := draw_line_pixels_spec x0 y0 x1 y1
  refine ⟨(x0, y0) :: l, hl, List.mem_cons_self _ _, hmem, ?_, ?_⟩
  · intro hx hy
    subst hx
    subst hy
    have hd : draw_line_pixels x0 y0 x0 y0 = some [(x0, y0)] := by
      show draw_line_loop x0 y0 |x0 - x0| (-|y0 - y0|) _ _ _ x0 y0 _ [] = _
      simp [draw_line_loop, sub_self]
    rw [hd] at hl
    exact (Option.some.injEq _ _ ▸ hl).symm
  · intro buffer color
    unfold draw_line
    rw [hl]

/-- C9 witness: coincident endpoints `(2, 3)`–`(2, 3)` produce exactly
the single pixel `(2, 3)`. -/
theorem C9_draw_line_endpoints_witness :
    draw_line_pixels 2 3 2 3 = some [(2, 3)] := by
  obtain ⟨l, hl, -, -, hdeg, -⟩ := C9_draw_line_endpoints 2 3 2 3
  rw [hl, hdeg rfl rfl]

/-- C1 witness: the contract evaluated on the concrete three-point input
`[(0,0), (10,0), (20,0)]` with `i = 0`, and the identity case on a
singleton. -/
theorem C1_chaikin_step_contract_witness :
    chaikin_step [⟨1, 1⟩] = [(⟨1, 1⟩ : Point)] ∧
    (chaikin_step [⟨0, 0⟩, ⟨10, 0⟩, ⟨20, 0⟩]).length = 2 + 2 * (3 - 1) ∧
    (chaikin_step [⟨0, 0⟩, ⟨10, 0⟩, ⟨20, 0⟩]).get? 1
      = some ⟨(0 : ℚ) * 0.75 + 10 * 0.25, 0 * 0.75 + 0 * 0.25⟩ := by
  refine ⟨(C1_chaikin_step_contract [⟨1, 1⟩]).1 (by simp), ?_, ?_⟩
  · exact ((C1_chaikin_step_contract [⟨0, 0⟩, ⟨10, 0⟩, ⟨20, 0⟩]).2 (by simp)).1
  · have h := (((C1_chaikin_step_contract
        [⟨0, 0⟩, ⟨10, 0⟩, ⟨20, 0⟩]).2 (by simp)).2.2.2 0 ⟨0, 0⟩ ⟨10, 0⟩ rfl rfl).1
    simpa using h

end Chaikin
